import Mathlib

/-!
Shallow embedding of `src/cipher.py` (Python 2), the puzzle-cipher library.

Values flowing through a cipher are either alphabet indices (Python ints) or
raw one-character strings (the columnar cipher appends the raw filler `'X'`
to its index list).  Python exceptions are modelled with `Except PyErr`.
Python's `random.Random` is modelled abstractly by `RNGModel`: a deterministic
seeding function plus deterministic sampling functions threading an explicit
generator state, which is exactly the property of the seeded Mersenne twister
that the library relies on.  `GCDCipher` and `ReprCipherMixin` are not
modelled: no claim concerns them.
-/

namespace PuzzleCipher

/-- A value in an index sequence: a Python int (`i`) or a one-character
string (`c`).  `Cipher.ord` translates characters to ints and passes ints
through; `ColumnarCipher` injects the raw character `'X'` as padding. -/
inductive V where
  | i (n : Int)
  | c (ch : Char)
deriving DecidableEq

/-- The Python exceptions the embedded code can raise. -/
inductive PyErr where
  | alphabetError (ch : Char)
  | indexError
  | typeError (msg : String)
  | zeroDivisionError
  | attributeError
deriving DecidableEq

/-- Python subscripting `obj[i]` for a sequence `l` and int `i`: negative
indices count from the end; out-of-range raises IndexError. -/
def pyIndex {α : Type} (l : List α) (i : Int) : Except PyErr α :=
  let j : Int := if i < 0 then i + l.length else i
  if h : 0 ≤ j ∧ j < l.length then
    .ok (l.get ⟨j.toNat, by omega⟩)
  else
    .error .indexError

/-- Python `x % n` on ints for a natural modulus `n` (`len(alphabet)`),
raising ZeroDivisionError when `n = 0`; otherwise the result is the
mathematical residue in `[0, n)`. -/
def pymod (x : Int) (n : Nat) : Except PyErr Int :=
  if n = 0 then .error .zeroDivisionError else .ok (x % (n : Int))

/-- `Cipher.ord`: a one-character string is looked up in the alphabet
(first occurrence, `str.index`), raising AlphabetError when absent; anything
that is not a one-character string (here: an int) passes through unchanged. -/
def pyord (alphabet : List Char) : V → Except PyErr V
  | .i n => .ok (.i n)
  | .c ch =>
    if ch ∈ alphabet then .ok (.i ((alphabet.indexOf ch : Nat) : Int))
    else .error (.alphabetError ch)

/-- `Cipher.chr`: `self.alphabet[offset]`.  For an int offset this is Python
subscripting (negative offsets index from the end); for a character offset
(the columnar filler `'X'`) Python raises TypeError because a string cannot
be subscripted by a string. -/
def pychr (alphabet : List Char) : V → Except PyErr Char
  | .i n => pyIndex alphabet n
  | .c _ => .error (.typeError "string indices must be integers")

/-- Python 2 `map(f, xs)`: eager, left to right, the first exception
propagates. -/
def mapME {α β : Type} (f : α → Except PyErr β) : List α → Except PyErr (List β)
  | [] => .ok []
  | x :: xs =>
    match f x with
    | .error e => .error e
    | .ok y =>
      match mapME f xs with
      | .error e => .error e
      | .ok ys => .ok (y :: ys)

/-- `Cipher.ords`: `map(self.ord, text)`. -/
def ords (alphabet : List Char) (input : List V) : Except PyErr (List V) :=
  mapME (pyord alphabet) input

/-- `Cipher.chrs`: `''.join(map(self.chr, offsets))`. -/
def chrs (alphabet : List Char) (offsets : List V) : Except PyErr (List Char) :=
  mapME (pychr alphabet) offsets

/-- The default alphabet `'ABCDEFGHIJKLMNOPQRSTUVWXYZ'`. -/
def defaultAlphabet : List Char := "ABCDEFGHIJKLMNOPQRSTUVWXYZ".toList

/-- Python 2 `str.isspace()` for a single ASCII character. -/
def pyIsspace (ch : Char) : Bool :=
  ch ∈ [' ', '\t', '\n', '\x0b', '\x0c', '\r']

/-- `string.punctuation` from the Python 2 standard library. -/
def pyPunct : List Char :=
  ['!', '\x22', '#', '$', '%', '&', '\x27', '(', ')', '*', '+', ',', '-',
   '.', '/', ':', ';', '<', '=', '>', '?', '@', '[', '\\', ']', '^', '_',
   '\x60', '\x7b', '|', '\x7d', '~']

/-- Python 2 `str.upper()` for a single ASCII character. -/
def pyUpper (ch : Char) : Char :=
  if 'a' ≤ ch ∧ ch ≤ 'z' then Char.ofNat (ch.toNat - 32) else ch

/-- Abstract deterministic pseudorandom generator: how the library uses
`random.Random`.  `seedOf` is `random.seed(s)` rebuilding the whole generator
state from the seed; `expoInt` is `int(random.expovariate(lambd))`; `shuffle`
is `random.shuffle` on a list.  All are deterministic state transformers,
which is true of the seeded Mersenne twister. -/
structure RNGModel (R : Type) where
  seedOf : Int → R
  expoInt : Rat → R → Int × R
  shuffle : List Int → R → List Int × R

/-- The cipher classes of `cipher.py`, one constructor per class, carrying the
base-class fields (`alphabet`, `seed`, `random`) plus the subclass fields.
The mutable per-instance state is `rng` (always) and `feedback` (feedback
ciphers); everything else is fixed at construction. -/
inductive Cipher (R : Type) : Type where
  | Cipher (alphabet : List Char) (seed : Int) (rng : R)
  | CaesarCipher (alphabet : List Char) (seed : Int) (rng : R) (rot_by : Int)
  | MapSubstitutionCipher (alphabet : List Char) (seed : Int) (rng : R) (mapping : List Int)
  | SkewedOneTimePadCipher (alphabet : List Char) (seed : Int) (rng : R) (skew : Rat)
  | SimpleFeedbackCipher (alphabet : List Char) (seed : Int) (rng : R)
      (init_rot_by : Int) (feedback : Int)
  | SquareFeedbackCipher (alphabet : List Char) (seed : Int) (rng : R)
      (init_rot_by : Int) (feedback : Int)
  | RotatingCipher (alphabet : List Char) (seed : Int) (rng : R)
      (init_rot_by : Int) (increment : Int)
  | ComposedCipher (alphabet : List Char) (seed : Int) (rng : R)
      (child1 child2 : Cipher R)
  | Smasher (alphabet : List Char) (seed : Int) (rng : R)
  | ColumnarCipher (alphabet : List Char) (seed : Int) (rng : R)
      (width : Nat) (column_order : List Int)
  | OneTimePadCipher (alphabet : List Char) (seed : Int) (rng : R) (pad : List V)

/-- The `self.alphabet` field. -/
def alphabetOf {R : Type} : Cipher R → List Char
  | .Cipher a _ _ => a
  | .CaesarCipher a _ _ _ => a
  | .MapSubstitutionCipher a _ _ _ => a
  | .SkewedOneTimePadCipher a _ _ _ => a
  | .SimpleFeedbackCipher a _ _ _ _ => a
  | .SquareFeedbackCipher a _ _ _ _ => a
  | .RotatingCipher a _ _ _ _ => a
  | .ComposedCipher a _ _ _ _ => a
  | .Smasher a _ _ => a
  | .ColumnarCipher a _ _ _ _ => a
  | .OneTimePadCipher a _ _ _ => a

/-- `CaesarCipher._encode_ord`: `(plain_ord + self.rot_by) % len(self.alphabet)`.
Adding an int to the raw character `'X'` would be a Python TypeError. -/
def caesarStep (alphabet : List Char) (rot_by : Int) : V → Except PyErr V
  | .i n => (pymod (n + rot_by) alphabet.length).map V.i
  | .c _ => .error (.typeError "cannot concatenate str and int objects")

/-- `MapSubstitutionCipher._encode_ord`: `self.mapping[plain_ord]`. -/
def mapStep (mapping : List Int) : V → Except PyErr V
  | .i n => (pyIndex mapping n).map V.i
  | .c _ => .error (.typeError "list indices must be integers")

/-- `SkewedOneTimePadCipher._encode_ords` (map of `_encode_ord`): each step
draws `pad_value = int(self.random.expovariate(self.skew / alpha_size))` from
the instance's generator and returns `(plain_ord + pad_value) % alpha_size`.
An empty alphabet makes `self.skew / alpha_size` raise ZeroDivisionError. -/
def skewedLoop {R : Type} (M : RNGModel R) (alphabet : List Char) (skew : Rat)
    (rng : R) : List V → Except PyErr (List V) × R
  | [] => (.ok [], rng)
  | v :: vs =>
    if alphabet.length = 0 then (.error .zeroDivisionError, rng)
    else
      let pr := M.expoInt (skew / (alphabet.length : Rat)) rng
      match v with
      | .c _ => (.error (.typeError "cannot concatenate str and int objects"), pr.2)
      | .i n =>
        match pymod (n + pr.1) alphabet.length with
        | .error e => (.error e, pr.2)
        | .ok out =>
          let rest := skewedLoop M alphabet skew pr.2 vs
          (rest.1.map (fun l => V.i out :: l), rest.2)

/-- `SimpleFeedbackCipher._encode_ords` (map of `_encode_ord`):
`output = (plain_ord + self.feedback) % len(self.alphabet)` then
`self.feedback = output`.  Returns the outputs and the final feedback. -/
def feedbackLoop (alphabet : List Char) (feedback : Int) :
    List V → Except PyErr (List V) × Int
  | [] => (.ok [], feedback)
  | v :: vs =>
    match v with
    | .c _ => (.error (.typeError "cannot concatenate str and int objects"), feedback)
    | .i n =>
      match pymod (n + feedback) alphabet.length with
      | .error e => (.error e, feedback)
      | .ok out =>
        let rest := feedbackLoop alphabet out vs
        (rest.1.map (fun l => V.i out :: l), rest.2)

/-- `SquareFeedbackCipher._encode_ords`: as `feedbackLoop` but the feedback
term is squared: `(plain_ord + self.feedback ** 2) % len(self.alphabet)`. -/
def squareFeedbackLoop (alphabet : List Char) (feedback : Int) :
    List V → Except PyErr (List V) × Int
  | [] => (.ok [], feedback)
  | v :: vs =>
    match v with
    | .c _ => (.error (.typeError "cannot concatenate str and int objects"), feedback)
    | .i n =>
      match pymod (n + feedback ^ 2) alphabet.length with
      | .error e => (.error e, feedback)
      | .ok out =>
        let rest := squareFeedbackLoop alphabet out vs
        (rest.1.map (fun l => V.i out :: l), rest.2)

/-- `IndexedSubstitutionCipher._encode_ords`: `yield self._encode_ord(v, i)`
with `i` counting up from 0 (consumed eagerly by the caller). -/
def indexedLoop (f : V → Nat → Except PyErr V) : Nat → List V → Except PyErr (List V)
  | _, [] => .ok []
  | i, v :: vs =>
    match f v i with
    | .error e => .error e
    | .ok out =>
      match indexedLoop f (i + 1) vs with
      | .error e => .error e
      | .ok rest => .ok (out :: rest)

/-- `RotatingCipher._encode_ord`:
`(plain + self.init_rot_by + self.increment * i) % alpha_size`. -/
def rotatingStep (alphabet : List Char) (init_rot_by increment : Int)
    (v : V) (i : Nat) : Except PyErr V :=
  match v with
  | .c _ => .error (.typeError "cannot concatenate str and int objects")
  | .i n => (pymod (n + init_rot_by + increment * (i : Int)) alphabet.length).map V.i

/-- `OneTimePadCipher._encode_ord`:
`(self.pad[i] + plain_ord) % len(self.alphabet)`; `self.pad[i]` raises
IndexError once the pad is exhausted. -/
def otpStep (alphabet : List Char) (pad : List V) (v : V) (i : Nat) :
    Except PyErr V :=
  match pyIndex pad (i : Int) with
  | .error e => .error e
  | .ok p =>
    match p, v with
    | .i pn, .i n => (pymod (pn + n) alphabet.length).map V.i
    | _, _ => .error (.typeError "cannot concatenate str and int objects")

/-- `Smasher.encode_ords` (a full override of `Cipher.encode_ords`, no reset):
drop whitespace and punctuation, uppercase, replace characters whose uppercase
form is not in the alphabet by `'X'`, then `map(self.ord, smashed)`.
Iterating a non-string element would be an AttributeError on `isspace`. -/
def smasherEncode (alphabet : List Char) (plaintext : List V) :
    Except PyErr (List V) :=
  match mapME (fun v => match v with
      | V.c ch => Except.ok ch
      | V.i _ => Except.error PyErr.attributeError) plaintext with
  | .error e => .error e
  | .ok chars =>
    let smashed1 := chars.filter (fun ch => !(pyIsspace ch) && !(pyPunct.contains ch))
    let smashed2 := smashed1.map (fun ch =>
      if alphabet.contains (pyUpper ch) then pyUpper ch else 'X')
    mapME (pyord alphabet) (smashed2.map V.c)

/-- `ColumnarCipher._encode_ords`: pad the list with the raw character `'X'`
until its length is a multiple of `width` (the `while` loop; `len % 0` is a
ZeroDivisionError), then for `i in range(len(text))` yield
`text[i * width % len(text) + column_order[i // height]]`. -/
def columnarEncode (width : Nat) (column_order : List Int) (plaintext : List V) :
    Except PyErr (List V) :=
  if width = 0 then .error .zeroDivisionError
  else
    let text := plaintext ++
      List.replicate ((width - plaintext.length % width) % width) (V.c 'X')
    let height := text.length / width
    mapME (fun i =>
        match pyIndex column_order ((i / height : Nat) : Int) with
        | .error e => .error e
        | .ok colOff =>
          pyIndex text ((((i * width) % text.length : Nat) : Int) + colOff))
      (List.range text.length)

/-- `Cipher.encode_ords` dispatched over the class hierarchy: `self.reset()`
(reseed the generator from `self.seed`; feedback ciphers also set
`self.feedback = self.init_rot_by`), translate the input with `self.ords`,
then run the subclass `_encode_ords`.  `Smasher` overrides `encode_ords`
entirely and performs no reset.  Returns the result together with the
mutated instance. -/
def encodeOrds {R : Type} (M : RNGModel R) :
    Cipher R → List V → Except PyErr (List V) × Cipher R
  | .Smasher a seed rng, input => (smasherEncode a input, .Smasher a seed rng)
  | .Cipher a seed _, input =>
    (ords a input, .Cipher a seed (M.seedOf seed))
  | .CaesarCipher a seed _ rot_by, input =>
    (match ords a input with
     | .error e => .error e
     | .ok po => mapME (caesarStep a rot_by) po,
     .CaesarCipher a seed (M.seedOf seed) rot_by)
  | .MapSubstitutionCipher a seed _ mapping, input =>
    (match ords a input with
     | .error e => .error e
     | .ok po => mapME (mapStep mapping) po,
     .MapSubstitutionCipher a seed (M.seedOf seed) mapping)
  | .SkewedOneTimePadCipher a seed _ skew, input =>
    (match ords a input with
     | .error e => (.error e, .SkewedOneTimePadCipher a seed (M.seedOf seed) skew)
     | .ok po =>
       let pr := skewedLoop M a skew (M.seedOf seed) po
       (pr.1, .SkewedOneTimePadCipher a seed pr.2 skew) :
       Except PyErr (List V) × Cipher R)
  | .SimpleFeedbackCipher a seed _ init_rot_by _, input =>
    (match ords a input with
     | .error e =>
       (.error e, .SimpleFeedbackCipher a seed (M.seedOf seed) init_rot_by init_rot_by)
     | .ok po =>
       let pr := feedbackLoop a init_rot_by po
       (pr.1, .SimpleFeedbackCipher a seed (M.seedOf seed) init_rot_by pr.2) :
       Except PyErr (List V) × Cipher R)
  | .SquareFeedbackCipher a seed _ init_rot_by _, input =>
    (match ords a input with
     | .error e =>
       (.error e, .SquareFeedbackCipher a seed (M.seedOf seed) init_rot_by init_rot_by)
     | .ok po =>
       let pr := squareFeedbackLoop a init_rot_by po
       (pr.1, .SquareFeedbackCipher a seed (M.seedOf seed) init_rot_by pr.2) :
       Except PyErr (List V) × Cipher R)
  | .RotatingCipher a seed _ init_rot_by increment, input =>
    (match ords a input with
     | .error e => .error e
     | .ok po => indexedLoop (rotatingStep a init_rot_by increment) 0 po,
     .RotatingCipher a seed (M.seedOf seed) init_rot_by increment)
  | .ComposedCipher a seed _ child1 child2, input =>
    (match ords a input with
     | .error e => (.error e, .ComposedCipher a seed (M.seedOf seed) child1 child2)
     | .ok po =>
       let p1 := encodeOrds M child1 po
       match p1.1 with
       | .error e => (.error e, .ComposedCipher a seed (M.seedOf seed) p1.2 child2)
       | .ok mid =>
         let p2 := encodeOrds M child2 mid
         (p2.1, .ComposedCipher a seed (M.seedOf seed) p1.2 p2.2) :
       Except PyErr (List V) × Cipher R)
  | .ColumnarCipher a seed _ width column_order, input =>
    (match ords a input with
     | .error e => .error e
     | .ok po => columnarEncode width column_order po,
     .ColumnarCipher a seed (M.seedOf seed) width column_order)
  | .OneTimePadCipher a seed _ pad, input =>
    (match ords a input with
     | .error e => .error e
     | .ok po => indexedLoop (otpStep a pad) 0 po,
     .OneTimePadCipher a seed (M.seedOf seed) pad)

/-- `Cipher.encode`: `self.chrs(self.encode_ords(plaintext))` on a text
input, returning the ciphertext together with the mutated instance. -/
def encode {R : Type} (M : RNGModel R) (c : Cipher R) (text : List Char) :
    Except PyErr (List Char) × Cipher R :=
  let pr := encodeOrds M c (text.map V.c)
  (match pr.1 with
   | .error e => .error e
   | .ok out => chrs (alphabetOf pr.2) out,
   pr.2)

/-- `Cipher.reset` (with the `SimpleFeedbackCipher.reset` override): reseed
the generator from the configured seed; feedback ciphers also set
`feedback = init_rot_by`. -/
def reset {R : Type} (M : RNGModel R) : Cipher R → Cipher R
  | .Cipher a seed _ => .Cipher a seed (M.seedOf seed)
  | .CaesarCipher a seed _ k => .CaesarCipher a seed (M.seedOf seed) k
  | .MapSubstitutionCipher a seed _ m => .MapSubstitutionCipher a seed (M.seedOf seed) m
  | .SkewedOneTimePadCipher a seed _ sk => .SkewedOneTimePadCipher a seed (M.seedOf seed) sk
  | .SimpleFeedbackCipher a seed _ init _ =>
    .SimpleFeedbackCipher a seed (M.seedOf seed) init init
  | .SquareFeedbackCipher a seed _ init _ =>
    .SquareFeedbackCipher a seed (M.seedOf seed) init init
  | .RotatingCipher a seed _ init inc => .RotatingCipher a seed (M.seedOf seed) init inc
  | .ComposedCipher a seed _ c1 c2 => .ComposedCipher a seed (M.seedOf seed) c1 c2
  | .Smasher a seed _ => .Smasher a seed (M.seedOf seed)
  | .ColumnarCipher a seed _ w o => .ColumnarCipher a seed (M.seedOf seed) w o
  | .OneTimePadCipher a seed _ p => .OneTimePadCipher a seed (M.seedOf seed) p

/-- `OneTimePadCipher.__init__`: the supplied pad is translated through the
instance's own alphabet codec, `self.pad = map(self.ord, self.pad)`, at
construction time (after the base init has set the alphabet). -/
def mkOneTimePadCipher {R : Type} (M : RNGModel R) (alphabet : List Char)
    (seed : Int) (pad : List V) : Except PyErr (Cipher R) :=
  (mapME (pyord alphabet) pad).map
    (fun padT => .OneTimePadCipher alphabet seed (M.seedOf seed) padT)

/-- `MapSubstitutionCipher.__init__`: an explicit mapping is stored as is;
with `mapping=None` the instance shuffles `range(len(alphabet))` with its own
freshly seeded generator, once, at construction. -/
def mkMapSubstitutionCipher {R : Type} (M : RNGModel R) (alphabet : List Char)
    (seed : Int) (mapping : Option (List Int)) : Cipher R :=
  match mapping with
  | some m => .MapSubstitutionCipher alphabet seed (M.seedOf seed) m
  | none =>
    let pr := M.shuffle ((List.range alphabet.length).map Int.ofNat) (M.seedOf seed)
    .MapSubstitutionCipher alphabet seed pr.2 pr.1

/-- `ComposedCipher(children=(c1, c2))` with the default base configuration,
as built by `Cipher.__or__` (were its type check not broken). -/
def mkComposedCipher {R : Type} (M : RNGModel R) (c1 c2 : Cipher R) : Cipher R :=
  .ComposedCipher defaultAlphabet 0 (M.seedOf 0) c1 c2

/-- Two instances have the same configuration: same class, same alphabet,
seed and strategy parameters; the mutable generator state and feedback value
may differ.  Composed pipelines are excluded (their children carry further
mutable state). -/
def sameConfig {R : Type} : Cipher R → Cipher R → Prop
  | .Cipher a s _, .Cipher a' s' _ => a = a' ∧ s = s'
  | .CaesarCipher a s _ k, .CaesarCipher a' s' _ k' => a = a' ∧ s = s' ∧ k = k'
  | .MapSubstitutionCipher a s _ m, .MapSubstitutionCipher a' s' _ m' =>
    a = a' ∧ s = s' ∧ m = m'
  | .SkewedOneTimePadCipher a s _ sk, .SkewedOneTimePadCipher a' s' _ sk' =>
    a = a' ∧ s = s' ∧ sk = sk'
  | .SimpleFeedbackCipher a s _ init _, .SimpleFeedbackCipher a' s' _ init' _ =>
    a = a' ∧ s = s' ∧ init = init'
  | .SquareFeedbackCipher a s _ init _, .SquareFeedbackCipher a' s' _ init' _ =>
    a = a' ∧ s = s' ∧ init = init'
  | .RotatingCipher a s _ init inc, .RotatingCipher a' s' _ init' inc' =>
    a = a' ∧ s = s' ∧ init = init' ∧ inc = inc'
  | .Smasher a s _, .Smasher a' s' _ => a = a' ∧ s = s'
  | .ColumnarCipher a s _ w o, .ColumnarCipher a' s' _ w' o' =>
    a = a' ∧ s = s' ∧ w = w' ∧ o = o'
  | .OneTimePadCipher a s _ p, .OneTimePadCipher a' s' _ p' =>
    a = a' ∧ s = s' ∧ p = p'
  | _, _ => False

/-- The ciphers whose transform is modular arithmetic on indices (claim C10):
fixed rotation, rotating, simple and square feedback, skewed additive pad,
pad-merge. -/
def ModularFamily {R : Type} : Cipher R → Prop
  | .CaesarCipher _ _ _ _ => True
  | .SkewedOneTimePadCipher _ _ _ _ => True
  | .SimpleFeedbackCipher _ _ _ _ _ => True
  | .SquareFeedbackCipher _ _ _ _ _ => True
  | .RotatingCipher _ _ _ _ _ => True
  | .OneTimePadCipher _ _ _ _ => True
  | _ => False

/-- A Python value as seen by `Cipher.__or__`: a cipher instance, a plain
non-class value, or the class object `Cipher` itself. -/
inductive PyObj (R : Type) : Type where
  | cipherObj (c : Cipher R)
  | intObj (n : Int)
  | strObj (s : List Char)
  | cipherClass

/-- Python `isinstance(x, cls)` over the modelled values: the second argument
must be a class object, otherwise CPython itself raises TypeError. -/
def pyIsinstance {R : Type} (x cls : PyObj R) : Except PyErr Bool :=
  match cls with
  | .cipherClass =>
    .ok (match x with
         | .cipherObj _ => true
         | _ => false)
  | _ => .error (.typeError
      "isinstance() arg 2 must be a class, type, or tuple of classes and types")

/-- `Cipher.__or__` exactly as written: `if not isinstance(Cipher, other)`
— note the swapped arguments, the class `Cipher` is passed as the object and
`other` as the class — `raise TypeError(...)`, else build
`ComposedCipher(children=(self, other))` (returned here as the raw children
tuple the constructor stores). -/
def orCompose {R : Type} (self : Cipher R) (other : PyObj R) :
    Except PyErr (Cipher R × PyObj R) :=
  match pyIsinstance (PyObj.cipherClass (R := R)) other with
  | .error e => .error e
  | .ok b =>
    if !b then .error (.typeError "Can only compose ciphers with other ciphers")
    else .ok (self, other)

/-- A trivial concrete generator model, used to instantiate witnesses. -/
def unitRNG : RNGModel Unit :=
  { seedOf := fun _ => (), expoInt := fun _ r => (0, r), shuffle := fun l r => (l, r) }

/-- A concrete generator model whose state visibly changes, used to
instantiate determinism witnesses with two distinct states. -/
def natRNG : RNGModel Nat :=
  { seedOf := fun s => s.toNat
    expoInt := fun _ r => ((r : Int), r + 1)
    shuffle := fun l r => (l.reverse, r + 1) }

/-- Modelled from the spec (§4.5): the simple feedback recurrence
`output[i] = (input[i] + feedback) mod N`, `feedback ← output[i]`. -/
def simpleFeedbackSpec (N : Nat) (feedback : Int) : List Int → List Int
  | [] => []
  | x :: xs =>
    let o := (x + feedback) % (N : Int)
    o :: simpleFeedbackSpec N o xs

/-! ### Helper lemmas -/

theorem pymod_ok {n : Nat} (hn : n ≠ 0) (x : Int) :
    pymod x n = .ok (x % (n : Int)) := by
  simp [pymod, hn]

theorem pymod_ok_range {x : Int} {n : Nat} {y : Int} (h : pymod x n = .ok y) :
    0 ≤ y ∧ y < (n : Int) := by
  unfold pymod at h
  split at h
  · exact absurd h (by simp)
  · rename_i hn
    injection h with h
    subst h
    have h0 : ((n : Int)) ≠ 0 := by exact_mod_cast hn
    exact ⟨Int.emod_nonneg x h0, Int.emod_lt_of_pos x (by omega)⟩

theorem list_get_eq_of_eq {α : Type} {l : List α} {a b : Nat}
    (ha : a < l.length) (hb : b < l.length) (h : a = b) :
    l.get ⟨a, ha⟩ = l.get ⟨b, hb⟩ := by
  subst h
  rfl

theorem pyIndex_nat_ok {α : Type} (l : List α) (i : Nat) (h : i < l.length) :
    pyIndex l (i : Int) = .ok (l.get ⟨i, h⟩) := by
  simp only [pyIndex]
  rw [dif_pos (by split <;> omega)]
  exact congrArg _ (list_get_eq_of_eq _ _ (by split <;> omega))

theorem pyIndex_nat_err {α : Type} (l : List α) (i : Nat) (h : l.length ≤ i) :
    pyIndex l (i : Int) = .error .indexError := by
  simp only [pyIndex]
  rw [dif_neg (by split <;> omega)]

theorem pyIndex_out_err {α : Type} (l : List α) (i : Int)
    (h : i < -(l.length : Int) ∨ (l.length : Int) ≤ i) :
    pyIndex l i = .error .indexError := by
  simp only [pyIndex]
  rw [dif_neg (by split <;> omega)]

theorem pyIndex_neg_ok {α : Type} (l : List α) (i : Int)
    (h1 : -(l.length : Int) ≤ i) (h2 : i < 0) :
    pyIndex l i = .ok (l.get ⟨(i + l.length).toNat, by omega⟩) := by
  simp only [pyIndex]
  rw [dif_pos (by split <;> omega)]
  exact congrArg _ (list_get_eq_of_eq _ _ (by split <;> omega))

theorem mapME_map_ok {α β γ : Type} {f : β → Except PyErr γ} {g : α → β}
    {t : α → γ} {l : List α} (h : ∀ x ∈ l, f (g x) = .ok (t x)) :
    mapME f (l.map g) = .ok (l.map t) := by
  induction l with
  | nil => rfl
  | cons x xs ih =>
    simp only [List.map_cons, mapME]
    rw [h x (by simp)]
    rw [ih (fun y hy => h y (by simp [hy]))]

theorem mapME_ok_id {α : Type} {f : α → Except PyErr α} {l : List α}
    (h : ∀ x ∈ l, f x = .ok x) : mapME f l = .ok l := by
  induction l with
  | nil => rfl
  | cons x xs ih =>
    simp only [mapME]
    rw [h x (by simp)]
    rw [ih (fun y hy => h y (by simp [hy]))]

theorem mapME_ok_forall {α β : Type} {f : α → Except PyErr β} {l : List α}
    {out : List β} (h : mapME f l = .ok out) :
    ∀ y ∈ out, ∃ x ∈ l, f x = .ok y := by
  induction l generalizing out with
  | nil =>
    simp only [mapME] at h
    injection h with h
    subst h
    simp
  | cons x xs ih =>
    simp only [mapME] at h
    cases hfx : f x with
    | error e => rw [hfx] at h; exact absurd h (by simp)
    | ok y0 =>
      rw [hfx] at h
      cases hrest : mapME f xs with
      | error e => rw [hrest] at h; exact absurd h (by simp)
      | ok ys =>
        rw [hrest] at h
        injection h with h
        subst h
        intro y hy
        rcases List.mem_cons.mp hy with rfl | hy
        · exact ⟨x, by simp, hfx⟩
        · rcases ih hrest y hy with ⟨x', hx', hfx'⟩
          exact ⟨x', by simp [hx'], hfx'⟩

theorem pyord_char_ok {alphabet : List Char} {ch : Char} (h : ch ∈ alphabet) :
    pyord alphabet (.c ch) = .ok (.i ((alphabet.indexOf ch : Nat) : Int)) := by
  simp [pyord, h]

theorem ords_text_ok (alphabet : List Char) {text : List Char}
    (h : ∀ ch ∈ text, ch ∈ alphabet) :
    ords alphabet (text.map V.c)
      = .ok (text.map (fun ch => V.i ((alphabet.indexOf ch : Nat) : Int))) :=
  mapME_map_ok (fun ch hch => pyord_char_ok (h ch hch))

theorem ords_pass {alphabet : List Char} {l : List V}
    (h : ∀ v ∈ l, ∃ n, v = V.i n) : ords alphabet l = .ok l := by
  refine mapME_ok_id (fun v hv => ?_)
  rcases h v hv with ⟨n, rfl⟩
  rfl

theorem ords_only_ints {alphabet : List Char} {l out : List V}
    (h : ords alphabet l = .ok out) : ∀ v ∈ out, ∃ n, v = V.i n := by
  intro v hv
  rcases mapME_ok_forall h v hv with ⟨x, _, hfx⟩
  cases x with
  | i n =>
    simp only [pyord] at hfx
    injection hfx with hfx
    exact ⟨n, hfx.symm⟩
  | c ch =>
    simp only [pyord] at hfx
    split at hfx
    · injection hfx with hfx
      exact ⟨_, hfx.symm⟩
    · exact absurd hfx (by simp)

/-! ### C1: determinism via reset-before-encode -/

theorem sameConfig_of_sameConfig_left {R : Type} {c1 c2 : Cipher R}
    (h : sameConfig c1 c2) : sameConfig c1 c1 := by
  cases c1 <;> cases c2 <;> simp only [sameConfig] at h ⊢ <;> simp_all

theorem encodeOrds_fst_congr {R : Type} (M : RNGModel R) {c1 c2 : Cipher R}
    (input : List V) (h : sameConfig c1 c2) :
    (encodeOrds M c1 input).1 = (encodeOrds M c2 input).1 := by
  cases c1 <;> cases c2 <;> simp only [sameConfig] at h <;> try exact h.elim
  all_goals
    first
    | (obtain ⟨rfl, rfl, rfl, rfl⟩ := h; rfl)
    | (obtain ⟨rfl, rfl, rfl⟩ := h; rfl)
    | (obtain ⟨rfl, rfl⟩ := h; rfl)

theorem encodeOrds_snd_config {R : Type} (M : RNGModel R) {c : Cipher R}
    (input : List V) (h : sameConfig c c) :
    sameConfig ((encodeOrds M c input).2) c := by
  cases c
  case ComposedCipher a s r c1 c2 => exact absurd h (by simp [sameConfig])
  case SkewedOneTimePadCipher a s r sk =>
    cases hords : ords a input <;> simp [encodeOrds, hords, sameConfig]
  case SimpleFeedbackCipher a s r init fb =>
    cases hords : ords a input <;> simp [encodeOrds, hords, sameConfig]
  case SquareFeedbackCipher a s r init fb =>
    cases hords : ords a input <;> simp [encodeOrds, hords, sameConfig]
  all_goals simp [encodeOrds, sameConfig]

theorem reset_sameConfig {R : Type} (M : RNGModel R) {c : Cipher R}
    (h : sameConfig c c) : sameConfig c (reset M c) := by
  cases c <;> simp_all [sameConfig, reset]

theorem pyIndex_int_ok {α : Type} (l : List α) (m : Int) (h0 : 0 ≤ m)
    (h : m < l.length) : pyIndex l m = .ok (l.get ⟨m.toNat, by omega⟩) := by
  simp only [pyIndex]
  rw [dif_pos (by split <;> omega)]
  exact congrArg _ (list_get_eq_of_eq _ _ (by split <;> omega))

theorem feedbackLoop_spec (a : List Char) (hN : 0 < a.length) (fb : Int)
    (input : List Int) :
    (feedbackLoop a fb (input.map V.i)).1
      = .ok ((simpleFeedbackSpec a.length fb input).map V.i) := by
  induction input generalizing fb with
  | nil => rfl
  | cons x xs ih =>
    simp only [List.map_cons, feedbackLoop, simpleFeedbackSpec,
      pymod_ok (show a.length ≠ 0 by omega)]
    rw [ih]
    rfl

/-- C1: for every seed and every non-composed strategy (fixed rotation,
permutation substitution, skewed additive pad, rotating, feedback,
transposition, pad-merge), two instances with the same configuration — the
same alphabet, seed and strategy parameters, but arbitrary generator and
feedback state — produce the same `encode_ords` output on the same input;
a repeated call on the mutated instance reproduces the first output; and the
output agrees with that of a freshly reset instance, because `encode_ords`
reseeds the generator (and feedback) from the configured seed first.  This
holds for every deterministic pseudorandom generator model. -/
theorem c1_encode_deterministic {R : Type} (M : RNGModel R) (c1 c2 : Cipher R)
    (input : List V) (h : sameConfig c1 c2) :
    (encodeOrds M c1 input).1 = (encodeOrds M c2 input).1 ∧
    (encodeOrds M ((encodeOrds M c1 input).2) input).1 = (encodeOrds M c1 input).1 ∧
    (encodeOrds M (reset M c1) input).1 = (encodeOrds M c1 input).1 := by
  have hself := sameConfig_of_sameConfig_left h
  refine ⟨encodeOrds_fst_congr M input h, ?_, ?_⟩
  · exact encodeOrds_fst_congr M input (encodeOrds_snd_config M input hself)
  · exact (encodeOrds_fst_congr M input (reset_sameConfig M hself)).symm

/-- Witness for C1: two skewed-pad instances with seed 7 but different
generator states agree on a concrete input. -/
theorem c1_encode_deterministic_witness :
    (encodeOrds natRNG (.SkewedOneTimePadCipher defaultAlphabet 7 5 26) [V.i 0, V.i 1]).1
      = (encodeOrds natRNG (.SkewedOneTimePadCipher defaultAlphabet 7 77 26) [V.i 0, V.i 1]).1 :=
  (c1_encode_deterministic natRNG
    (.SkewedOneTimePadCipher defaultAlphabet 7 5 26)
    (.SkewedOneTimePadCipher defaultAlphabet 7 77 26)
    [V.i 0, V.i 1] ⟨rfl, rfl, rfl⟩).1

/-- C2 (code bug): `Cipher.__or__` tests `isinstance(Cipher, other)` with the
arguments swapped, so composing a cipher with another cipher instance raises
TypeError from `isinstance` itself — arg 2 must be a class — instead of
returning a `ComposedCipher`; composing with a non-cipher value raises the
same TypeError rather than the intended "Can only compose" one. -/
theorem c2_or_isinstance_swapped :
    orCompose (R := Unit) (.CaesarCipher defaultAlphabet 0 () 13)
        (.cipherObj (.CaesarCipher defaultAlphabet 0 () 5))
      = .error (.typeError
          "isinstance() arg 2 must be a class, type, or tuple of classes and types") ∧
    orCompose (R := Unit) (.CaesarCipher defaultAlphabet 0 () 13) (.intObj 5)
      = .error (.typeError
          "isinstance() arg 2 must be a class, type, or tuple of classes and types") :=
  ⟨rfl, rfl⟩

/-- C4 (code bug): the transposition doctests hold — width 3 on
`'ABCDEFGHI'` yields `'ADGBEHCFI'` and column order `[2,0,1]` yields
`'CFIADGBEH'` — but on input `'ABCD'`, whose length is not a multiple of the
width, the padding loop appends the raw character `'X'` to the index list,
`encode_ords` emits it unchanged, and `encode` then raises TypeError when
`chr` subscripts the alphabet string with `'X'`, instead of returning the
6-character padded ciphertext the claim describes. -/
theorem c4_columnar_padding_breaks_encode :
    (encode unitRNG (.ColumnarCipher defaultAlphabet 0 () 3 [0, 1, 2])
        "ABCDEFGHI".toList).1 = .ok "ADGBEHCFI".toList ∧
    (encode unitRNG (.ColumnarCipher defaultAlphabet 0 () 3 [2, 0, 1])
        "ABCDEFGHI".toList).1 = .ok "CFIADGBEH".toList ∧
    (encodeOrds unitRNG (.ColumnarCipher defaultAlphabet 0 () 3 [0, 1, 2])
        ("ABCD".toList.map V.c)).1
      = .ok [V.i 0, V.i 3, V.i 1, V.c 'X', V.i 2, V.c 'X'] ∧
    (encode unitRNG (.ColumnarCipher defaultAlphabet 0 () 3 [0, 1, 2])
        "ABCD".toList).1 = .error (.typeError "string indices must be integers") :=
  ⟨rfl, rfl, rfl, rfl⟩

/-- C3: the simple feedback cipher computes
`output[i] = (input[i] + feedback) mod N`, updating the feedback to the
output after each step and initialising it to the configured start value at
the reset that opens every encode; with the defaults (initial feedback 13,
26-letter alphabet), `'AAAABBBBCCCCDDDD'` encodes to `'NNNNOPQRTVXZCFIL'`. -/
theorem c3_simple_feedback {R : Type} (M : RNGModel R) (a : List Char)
    (hN : 0 < a.length) (seed : Int) (rng : R) (init fb0 : Int)
    (input : List Int) :
    (encodeOrds M (.SimpleFeedbackCipher a seed rng init fb0) (input.map V.i)).1
      = .ok ((simpleFeedbackSpec a.length init input).map V.i) ∧
    (encode unitRNG (.SimpleFeedbackCipher defaultAlphabet 0 () 13 13)
        "AAAABBBBCCCCDDDD".toList).1 = .ok "NNNNOPQRTVXZCFIL".toList := by
  constructor
  · have hords : ords a (input.map V.i) = .ok (input.map V.i) :=
      ords_pass (by
        intro v hv
        rcases List.mem_map.mp hv with ⟨n, _, rfl⟩
        exact ⟨n, rfl⟩)
    simp only [encodeOrds, hords]
    exact feedbackLoop_spec a hN init input
  · rfl

/-- Witness for C3: the general recurrence instantiated at a concrete
instance whose stale feedback field (99) is ignored by the reset. -/
theorem c3_simple_feedback_witness :
    (encodeOrds unitRNG (.SimpleFeedbackCipher defaultAlphabet 0 () 13 99)
        (([0, 1, 2] : List Int).map V.i)).1
      = .ok ((simpleFeedbackSpec defaultAlphabet.length 13 [0, 1, 2]).map V.i) :=
  (c3_simple_feedback unitRNG defaultAlphabet (by decide) 0 () 13 99 [0, 1, 2]).1

/-! ### C10: modular transforms only emit indices in `[0, N)` -/

theorem caesarStep_range {a : List Char} {k : Int} {v w : V}
    (h : caesarStep a k v = .ok w) :
    ∃ n, w = V.i n ∧ 0 ≤ n ∧ n < (a.length : Int) := by
  cases v with
  | c ch => exact absurd h (by simp [caesarStep])
  | i n =>
    simp only [caesarStep] at h
    cases hp : pymod (n + k) a.length with
    | error e => rw [hp] at h; exact absurd h (by simp [Except.map])
    | ok y =>
      rw [hp] at h
      simp only [Except.map] at h
      injection h with h
      obtain ⟨h1, h2⟩ := pymod_ok_range hp
      exact ⟨y, h.symm, h1, h2⟩

theorem rotatingStep_range {a : List Char} {init inc : Int} {v w : V} {i : Nat}
    (h : rotatingStep a init inc v i = .ok w) :
    ∃ n, w = V.i n ∧ 0 ≤ n ∧ n < (a.length : Int) := by
  cases v with
  | c ch => exact absurd h (by simp [rotatingStep])
  | i n =>
    simp only [rotatingStep] at h
    cases hp : pymod (n + init + inc * (i : Int)) a.length with
    | error e => rw [hp] at h; exact absurd h (by simp [Except.map])
    | ok y =>
      rw [hp] at h
      simp only [Except.map] at h
      injection h with h
      obtain ⟨h1, h2⟩ := pymod_ok_range hp
      exact ⟨y, h.symm, h1, h2⟩

theorem otpStep_range {a : List Char} {pad : List V} {v w : V} {i : Nat}
    (h : otpStep a pad v i = .ok w) :
    ∃ n, w = V.i n ∧ 0 ≤ n ∧ n < (a.length : Int) := by
  simp only [otpStep] at h
  cases hpi : pyIndex pad (i : Int) with
  | error e => rw [hpi] at h; exact absurd h (by simp)
  | ok p =>
    rw [hpi] at h
    match p, v with
    | .c _, _ => exact absurd h (by simp)
    | .i pn, .c _ => exact absurd h (by simp)
    | .i pn, .i n =>
      simp only [] at h
      cases hp : pymod (pn + n) a.length with
      | error e => rw [hp] at h; exact absurd h (by simp [Except.map])
      | ok y =>
        rw [hp] at h
        simp only [Except.map] at h
        injection h with h
        obtain ⟨h1, h2⟩ := pymod_ok_range hp
        exact ⟨y, h.symm, h1, h2⟩

theorem indexedLoop_forall {P : V → Prop} {f : V → Nat → Except PyErr V}
    (hf : ∀ v i w, f v i = .ok w → P w) :
    ∀ {i : Nat} {l out : List V}, indexedLoop f i l = .ok out → ∀ w ∈ out, P w := by
  intro i l
  induction l generalizing i with
  | nil =>
    intro out h
    simp only [indexedLoop] at h
    injection h with h
    subst h
    simp
  | cons v vs ih =>
    intro out h
    simp only [indexedLoop] at h
    cases hfv : f v i with
    | error e => rw [hfv] at h; exact absurd h (by simp)
    | ok y =>
      rw [hfv] at h
      cases hrest : indexedLoop f (i + 1) vs with
      | error e => rw [hrest] at h; exact absurd h (by simp)
      | ok ys =>
        rw [hrest] at h
        injection h with h
        subst h
        intro w hw
        rcases List.mem_cons.mp hw with rfl | hw
        · exact hf v i w hfv
        · exact ih hrest w hw

theorem feedbackLoop_range {a : List Char} :
    ∀ {l : List V} {fb : Int} {out : List V}, (feedbackLoop a fb l).1 = .ok out →
    ∀ v ∈ out, ∃ n, v = V.i n ∧ 0 ≤ n ∧ n < (a.length : Int) := by
  intro l
  induction l with
  | nil =>
    intro fb out h
    injection h with h
    subst h
    simp
  | cons v vs ih =>
    intro fb out h
    cases v with
    | c ch => exact absurd h (by simp [feedbackLoop])
    | i n =>
      simp only [feedbackLoop] at h
      cases hp : pymod (n + fb) a.length with
      | error e => rw [hp] at h; exact absurd h (by simp)
      | ok y =>
        rw [hp] at h
        simp only [] at h
        cases hrest : (feedbackLoop a y vs).1 with
        | error e => rw [hrest] at h; exact absurd h (by simp [Except.map])
        | ok ys =>
          rw [hrest] at h
          simp only [Except.map] at h
          injection h with h
          subst h
          intro w hw
          rcases List.mem_cons.mp hw with rfl | hw
          · obtain ⟨h1, h2⟩ := pymod_ok_range hp
            exact ⟨y, rfl, h1, h2⟩
          · exact ih hrest w hw

theorem squareFeedbackLoop_range {a : List Char} :
    ∀ {l : List V} {fb : Int} {out : List V},
    (squareFeedbackLoop a fb l).1 = .ok out →
    ∀ v ∈ out, ∃ n, v = V.i n ∧ 0 ≤ n ∧ n < (a.length : Int) := by
  intro l
  induction l with
  | nil =>
    intro fb out h
    injection h with h
    subst h
    simp
  | cons v vs ih =>
    intro fb out h
    cases v with
    | c ch => exact absurd h (by simp [squareFeedbackLoop])
    | i n =>
      simp only [squareFeedbackLoop] at h
      cases hp : pymod (n + fb ^ 2) a.length with
      | error e => rw [hp] at h; exact absurd h (by simp)
      | ok y =>
        rw [hp] at h
        simp only [] at h
        cases hrest : (squareFeedbackLoop a y vs).1 with
        | error e => rw [hrest] at h; exact absurd h (by simp [Except.map])
        | ok ys =>
          rw [hrest] at h
          simp only [Except.map] at h
          injection h with h
          subst h
          intro w hw
          rcases List.mem_cons.mp hw with rfl | hw
          · obtain ⟨h1, h2⟩ := pymod_ok_range hp
            exact ⟨y, rfl, h1, h2⟩
          · exact ih hrest w hw

theorem skewedLoop_range {R : Type} {M : RNGModel R} {a : List Char} {skew : Rat} :
    ∀ {l : List V} {rng : R} {out : List V},
    (skewedLoop M a skew rng l).1 = .ok out →
    ∀ v ∈ out, ∃ n, v = V.i n ∧ 0 ≤ n ∧ n < (a.length : Int) := by
  intro l
  induction l with
  | nil =>
    intro rng out h
    injection h with h
    subst h
    simp
  | cons v vs ih =>
    intro rng out h
    simp only [skewedLoop] at h
    by_cases hz : a.length = 0
    · rw [if_pos hz] at h; exact absurd h (by simp)
    · rw [if_neg hz] at h
      cases v with
      | c ch => exact absurd h (by simp)
      | i n =>
        simp only [] at h
        cases hp : pymod (n + (M.expoInt (skew / (a.length : Rat)) rng).1) a.length with
        | error e => rw [hp] at h; exact absurd h (by simp)
        | ok y =>
          rw [hp] at h
          cases hrest : (skewedLoop M a skew (M.expoInt (skew / (a.length : Rat)) rng).2 vs).1 with
          | error e => rw [hrest] at h; exact absurd h (by simp [Except.map])
          | ok ys =>
            rw [hrest] at h
            simp only [Except.map] at h
            injection h with h
            subst h
            intro w hw
            rcases List.mem_cons.mp hw with rfl | hw
            · obtain ⟨h1, h2⟩ := pymod_ok_range hp
              exact ⟨y, rfl, h1, h2⟩
            · exact ih hrest w hw

/-- C10: for every modular-arithmetic cipher (fixed rotation, rotating,
simple and square feedback, skewed additive pad, pad-merge) over a non-empty
alphabet, every index that `encode_ords` produces from in-alphabet input lies
in `[0, N)` — whatever the rotation amount, increment, feedback start, skew
or pad entries, including negative ones or ones at least `N`, because each
step ends with Python's `%` by the alphabet size. -/
theorem c10_outputs_in_range {R : Type} (M : RNGModel R) (c : Cipher R)
    (hmod : ModularFamily c) (hN : 0 < (alphabetOf c).length)
    (text : List Char) (htext : ∀ ch ∈ text, ch ∈ alphabetOf c) (out : List V)
    (hout : (encodeOrds M c (text.map V.c)).1 = .ok out) :
    ∀ v ∈ out, ∃ n, v = V.i n ∧ 0 ≤ n ∧ n < ((alphabetOf c).length : Int) := by
  cases c
  case CaesarCipher a s r k =>
    simp only [alphabetOf] at *
    cases hords : ords a (text.map V.c) with
    | error e =>
      simp only [encodeOrds, hords] at hout
      exact absurd hout (by simp)
    | ok po =>
      simp only [encodeOrds, hords] at hout
      intro v hv
      rcases mapME_ok_forall hout v hv with ⟨x, _, hfx⟩
      exact caesarStep_range hfx
  case RotatingCipher a s r init inc =>
    simp only [alphabetOf] at *
    cases hords : ords a (text.map V.c) with
    | error e =>
      simp only [encodeOrds, hords] at hout
      exact absurd hout (by simp)
    | ok po =>
      simp only [encodeOrds, hords] at hout
      exact indexedLoop_forall (fun v i w hw => rotatingStep_range hw) hout
  case OneTimePadCipher a s r pad =>
    simp only [alphabetOf] at *
    cases hords : ords a (text.map V.c) with
    | error e =>
      simp only [encodeOrds, hords] at hout
      exact absurd hout (by simp)
    | ok po =>
      simp only [encodeOrds, hords] at hout
      exact indexedLoop_forall (fun v i w hw => otpStep_range hw) hout
  case SimpleFeedbackCipher a s r init fb =>
    simp only [alphabetOf] at *
    cases hords : ords a (text.map V.c) with
    | error e =>
      simp only [encodeOrds, hords] at hout
      exact absurd hout (by simp)
    | ok po =>
      simp only [encodeOrds, hords] at hout
      exact feedbackLoop_range hout
  case SquareFeedbackCipher a s r init fb =>
    simp only [alphabetOf] at *
    cases hords : ords a (text.map V.c) with
    | error e =>
      simp only [encodeOrds, hords] at hout
      exact absurd hout (by simp)
    | ok po =>
      simp only [encodeOrds, hords] at hout
      exact squareFeedbackLoop_range hout
  case SkewedOneTimePadCipher a s r sk =>
    simp only [alphabetOf] at *
    cases hords : ords a (text.map V.c) with
    | error e =>
      simp only [encodeOrds, hords] at hout
      exact absurd hout (by simp)
    | ok po =>
      simp only [encodeOrds, hords] at hout
      exact skewedLoop_range hout
  all_goals exact absurd hmod (by simp [ModularFamily])

/-- Witness for C10: a rotation amount of `-100` on `'A'` still lands in
`[0, 26)` (it produces index 4). -/
theorem c10_outputs_in_range_witness :
    ∃ n, V.i 4 = V.i n ∧ 0 ≤ n ∧ n < ((defaultAlphabet).length : Int) :=
  c10_outputs_in_range unitRNG (.CaesarCipher defaultAlphabet 0 () (-100))
    trivial (by decide) "AB".toList (by decide) [V.i 4, V.i 5] (by rfl)
    (V.i 4) (by decide)

/-! ### C7: pad-merge cipher -/

theorem ords_map_int (a : List Char) (l : List Int) :
    ords a (l.map V.i) = .ok (l.map V.i) :=
  ords_pass (by
    intro v hv
    rcases List.mem_map.mp hv with ⟨n, _, rfl⟩
    exact ⟨n, rfl⟩)

theorem otp_indexedLoop_ok (a : List Char) (hN : a.length ≠ 0) (padInts : List Int) :
    ∀ (input : List Int) (i : Nat), i + input.length ≤ padInts.length →
    indexedLoop (otpStep a (padInts.map V.i)) i (input.map V.i)
      = .ok ((List.zipWith (fun p x => (p + x) % (a.length : Int))
          (padInts.drop i) input).map V.i) := by
  intro input
  induction input with
  | nil =>
    intro i h
    simp [indexedLoop]
  | cons x xs ih =>
    intro i h
    have hi : i < padInts.length := by
      simp only [List.length_cons] at h
      omega
    have hi' : i < (padInts.map V.i).length := by simpa using hi
    simp only [List.map_cons, indexedLoop, otpStep]
    rw [pyIndex_nat_ok _ _ hi']
    simp only [List.get_eq_getElem, List.getElem_map]
    simp only [pymod_ok hN]
    rw [ih (i + 1) (by simp only [List.length_cons] at h; omega)]
    rw [List.drop_eq_getElem_cons hi, List.zipWith_cons_cons]
    simp [Except.map]

theorem otp_indexedLoop_err (a : List Char) (hN : a.length ≠ 0) (padInts : List Int) :
    ∀ (input : List Int) (i : Nat), padInts.length < i + input.length →
    input ≠ [] →
    indexedLoop (otpStep a (padInts.map V.i)) i (input.map V.i)
      = .error .indexError := by
  intro input
  induction input with
  | nil =>
    intro i h hne
    exact absurd rfl hne
  | cons x xs ih =>
    intro i h _
    simp only [List.map_cons, indexedLoop, otpStep]
    by_cases hi : i < padInts.length
    · have hi' : i < (padInts.map V.i).length := by simpa using hi
      rw [pyIndex_nat_ok _ _ hi']
      simp only [List.get_eq_getElem, List.getElem_map]
      have hxs : xs ≠ [] := by
        intro hx
        subst hx
        simp only [List.length_cons, List.length_nil] at h
        omega
      rw [ih (i + 1) (by simp only [List.length_cons] at h; omega) hxs]
      simp [pymod_ok hN, Except.map]
    · have hge : (padInts.map V.i).length ≤ i := by
        simp only [List.length_map]
        omega
      rw [pyIndex_nat_err _ _ hge]

/-- C7: the one-time-pad cipher translates its pad through the instance's own
alphabet codec at construction; on index input it computes
`output[i] = (pad[i] + input[i]) mod N` while the pad lasts; and when the pad
is shorter than the input, encoding fails with the IndexError raised by
`self.pad[i]` (the realisation of the spec's `InsufficientPadError`) rather
than wrapping or truncating. -/
theorem c7_one_time_pad {R : Type} (M : RNGModel R) (a : List Char)
    (hN : 0 < a.length) (seed : Int) (padRaw : List V) (padInts : List Int)
    (hpad : mapME (pyord a) padRaw = .ok (padInts.map V.i)) :
    mkOneTimePadCipher M a seed padRaw
      = .ok (.OneTimePadCipher a seed (M.seedOf seed) (padInts.map V.i)) ∧
    (∀ input : List Int, input.length ≤ padInts.length →
      (encodeOrds M (.OneTimePadCipher a seed (M.seedOf seed) (padInts.map V.i))
          (input.map V.i)).1
        = .ok ((List.zipWith (fun p x => (p + x) % (a.length : Int))
            padInts input).map V.i)) ∧
    (∀ input : List Int, padInts.length < input.length →
      (encodeOrds M (.OneTimePadCipher a seed (M.seedOf seed) (padInts.map V.i))
          (input.map V.i)).1 = .error .indexError) := by
  refine ⟨?_, ?_, ?_⟩
  · simp [mkOneTimePadCipher, hpad, Except.map]
  · intro input hlen
    simp only [encodeOrds, ords_map_int]
    have h0 := otp_indexedLoop_ok a (by omega) padInts input 0 (by omega)
    simpa using h0
  · intro input hlen
    simp only [encodeOrds, ords_map_int]
    refine otp_indexedLoop_err a (by omega) padInts input 0 (by omega) ?_
    intro hx
    subst hx
    simp only [List.length_nil] at hlen
    omega

/-- Witness for C7: pad `'AAAA'` is translated to `[0,0,0,0]`, acts as the
additive identity on `[0,1,2,3]`, and a length-5 input fails. -/
theorem c7_one_time_pad_witness :
    mkOneTimePadCipher unitRNG defaultAlphabet 0 ("AAAA".toList.map V.c)
      = .ok (.OneTimePadCipher defaultAlphabet 0 ()
          (([0, 0, 0, 0] : List Int).map V.i)) ∧
    (encodeOrds unitRNG (.OneTimePadCipher defaultAlphabet 0 ()
        (([0, 0, 0, 0] : List Int).map V.i)) (([0, 1, 2, 3] : List Int).map V.i)).1
      = .ok ((List.zipWith (fun p x => (p + x) % (defaultAlphabet.length : Int))
          [0, 0, 0, 0] [0, 1, 2, 3]).map V.i) ∧
    (encodeOrds unitRNG (.OneTimePadCipher defaultAlphabet 0 ()
        (([0, 0, 0, 0] : List Int).map V.i)) (([0, 1, 2, 3, 4] : List Int).map V.i)).1
      = .error .indexError := by
  have h := c7_one_time_pad unitRNG defaultAlphabet (by decide) 0
    ("AAAA".toList.map V.c) [0, 0, 0, 0] (by rfl)
  exact ⟨h.1, h.2.1 [0, 1, 2, 3] (by decide), h.2.2 [0, 1, 2, 3, 4] (by decide)⟩

/-! ### C5: rotation inverses -/

/-- The character `CaesarCipher(rot_by=k)` produces for an in-alphabet
character: the alphabet entry at `(indexOf ch + k) mod N`. -/
def rotChar (a : List Char) (k : Int) (ch : Char) : Char :=
  (a.get? (((a.indexOf ch : Int) + k) % (a.length : Int)).toNat).getD 'A'

theorem pychr_rotChar {a : List Char} {k : Int} {ch : Char} (h : ch ∈ a) :
    pychr a (V.i (((a.indexOf ch : Int) + k) % (a.length : Int)))
      = .ok (rotChar a k ch) := by
  have hidx : a.indexOf ch < a.length := List.indexOf_lt_length.mpr h
  have hm0 : 0 ≤ ((a.indexOf ch : Int) + k) % (a.length : Int) :=
    Int.emod_nonneg _ (by omega)
  have hm : ((a.indexOf ch : Int) + k) % (a.length : Int) < a.length :=
    Int.emod_lt_of_pos _ (by omega)
  simp only [pychr]
  rw [pyIndex_int_ok _ _ hm0 hm]
  unfold rotChar
  rw [List.get?_eq_get (by omega)]
  rfl

theorem rotChar_mem {a : List Char} {k : Int} {ch : Char} (h : ch ∈ a) :
    rotChar a k ch ∈ a := by
  have hidx : a.indexOf ch < a.length := List.indexOf_lt_length.mpr h
  have hm0 : 0 ≤ ((a.indexOf ch : Int) + k) % (a.length : Int) :=
    Int.emod_nonneg _ (by omega)
  have hm : ((a.indexOf ch : Int) + k) % (a.length : Int) < a.length :=
    Int.emod_lt_of_pos _ (by omega)
  unfold rotChar
  rw [List.get?_eq_get (by omega)]
  exact List.get_mem _ _ _

theorem rotChar_inverse {a : List Char} (hnd : a.Nodup) (k : Int) {ch : Char}
    (h : ch ∈ a) :
    rotChar a k (rotChar a ((a.length : Int) - k) ch) = ch := by
  have hidx : a.indexOf ch < a.length := List.indexOf_lt_length.mpr h
  have hm0 : 0 ≤ ((a.indexOf ch : Int) + ((a.length : Int) - k)) % (a.length : Int) :=
    Int.emod_nonneg _ (by omega)
  have hm : ((a.indexOf ch : Int) + ((a.length : Int) - k)) % (a.length : Int)
      < (a.length : Int) := Int.emod_lt_of_pos _ (by omega)
  have hmlt : (((a.indexOf ch : Int) + ((a.length : Int) - k)) % (a.length : Int)).toNat
      < a.length := by omega
  have h1 : rotChar a ((a.length : Int) - k) ch
      = a.get ⟨(((a.indexOf ch : Int) + ((a.length : Int) - k)) % (a.length : Int)).toNat,
          hmlt⟩ := by
    unfold rotChar
    rw [List.get?_eq_get hmlt]
    rfl
  rw [h1]
  have h2 : a.indexOf
      (a.get ⟨(((a.indexOf ch : Int) + ((a.length : Int) - k)) % (a.length : Int)).toNat,
        hmlt⟩)
      = (((a.indexOf ch : Int) + ((a.length : Int) - k)) % (a.length : Int)).toNat := by
    have := List.indexOf_getElem hnd
      ((((a.indexOf ch : Int) + ((a.length : Int) - k)) % (a.length : Int)).toNat) hmlt
    simpa [List.get_eq_getElem] using this
  unfold rotChar
  rw [h2]
  have h3 : (((((a.indexOf ch : Int) + ((a.length : Int) - k)) % (a.length : Int)).toNat : Int)
      + k) % (a.length : Int) = (a.indexOf ch : Int) := by
    rw [Int.toNat_of_nonneg hm0]
    rw [Int.emod_add_emod]
    have hr : (a.indexOf ch : Int) + ((a.length : Int) - k) + k
        = (a.indexOf ch : Int) + (a.length : Int) * 1 := by ring
    rw [hr, Int.add_mul_emod_self_left]
    exact Int.emod_eq_of_lt (by omega) (by omega)
  rw [h3]
  rw [List.get?_eq_get (by omega : ((a.indexOf ch : Int)).toNat < a.length)]
  simp only [Option.getD_some]
  rw [list_get_eq_of_eq _ hidx (by omega)]
  exact List.indexOf_get hidx

theorem rotChar_zero {a : List Char} {ch : Char} (h : ch ∈ a) :
    rotChar a 0 ch = ch := by
  have hidx : a.indexOf ch < a.length := List.indexOf_lt_length.mpr h
  unfold rotChar
  have h1 : ((a.indexOf ch : Int) + 0) % (a.length : Int) = (a.indexOf ch : Int) := by
    rw [add_zero]
    exact Int.emod_eq_of_lt (by omega) (by omega)
  rw [h1]
  rw [List.get?_eq_get (by omega : ((a.indexOf ch : Int)).toNat < a.length)]
  simp only [Option.getD_some]
  rw [list_get_eq_of_eq _ hidx (by omega)]
  exact List.indexOf_get hidx

theorem rotChar_alphalen {a : List Char} {ch : Char} (h : ch ∈ a) :
    rotChar a (a.length : Int) ch = ch := by
  have hidx : a.indexOf ch < a.length := List.indexOf_lt_length.mpr h
  unfold rotChar
  have h1 : ((a.indexOf ch : Int) + (a.length : Int)) % (a.length : Int)
      = (a.indexOf ch : Int) := by
    have hr : (a.indexOf ch : Int) + (a.length : Int)
        = (a.indexOf ch : Int) + (a.length : Int) * 1 := by ring
    rw [hr, Int.add_mul_emod_self_left]
    exact Int.emod_eq_of_lt (by omega) (by omega)
  rw [h1]
  rw [List.get?_eq_get (by omega : ((a.indexOf ch : Int)).toNat < a.length)]
  simp only [Option.getD_some]
  rw [list_get_eq_of_eq _ hidx (by omega)]
  exact List.indexOf_get hidx

theorem caesar_encode_ok {R : Type} (M : RNGModel R) (a : List Char) (seed : Int)
    (rng : R) (k : Int) {text : List Char} (h : ∀ ch ∈ text, ch ∈ a) :
    (encode M (.CaesarCipher a seed rng k) text).1 = .ok (text.map (rotChar a k)) := by
  have hords := ords_text_ok a h
  simp only [encode, encodeOrds, hords, alphabetOf]
  have hmap : mapME (caesarStep a k)
      (text.map (fun ch => V.i ((a.indexOf ch : Nat) : Int)))
      = .ok (text.map (fun ch =>
          V.i (((a.indexOf ch : Int) + k) % (a.length : Int)))) :=
    mapME_map_ok (fun ch hch => by
      have hidx : a.indexOf ch < a.length := List.indexOf_lt_length.mpr (h ch hch)
      simp [caesarStep, pymod_ok (show a.length ≠ 0 by omega), Except.map])
  rw [hmap]
  exact mapME_map_ok (fun ch hch => pychr_rotChar (h ch hch))

/-- C5: over any duplicate-free alphabet of size `N`, for every rotation
amount `k` and every text drawn from the alphabet, encoding with rotation
`N - k` and then with rotation `k` returns the original text, and rotation by
`0` or by `N` is the identity. -/
theorem c5_caesar_inverse {R : Type} (M : RNGModel R) (a : List Char)
    (hnd : a.Nodup) (k : Int) (s1 s2 : Int) (r1 r2 : R) (text : List Char)
    (htext : ∀ ch ∈ text, ch ∈ a) :
    (∃ mid, (encode M (.CaesarCipher a s1 r1 ((a.length : Int) - k)) text).1 = .ok mid ∧
        (encode M (.CaesarCipher a s2 r2 k) mid).1 = .ok text) ∧
    (encode M (.CaesarCipher a s1 r1 0) text).1 = .ok text ∧
    (encode M (.CaesarCipher a s1 r1 (a.length : Int)) text).1 = .ok text := by
  refine ⟨⟨text.map (rotChar a ((a.length : Int) - k)),
      caesar_encode_ok M a s1 r1 _ htext, ?_⟩, ?_, ?_⟩
  · have hmid : ∀ ch ∈ text.map (rotChar a ((a.length : Int) - k)), ch ∈ a := by
      intro ch hch
      rcases List.mem_map.mp hch with ⟨ch0, hch0, rfl⟩
      exact rotChar_mem (htext ch0 hch0)
    rw [caesar_encode_ok M a s2 r2 k hmid]
    rw [List.map_map]
    congr 1
    calc text.map (rotChar a k ∘ rotChar a ((a.length : Int) - k))
        = text.map id :=
          List.map_congr_left (fun ch hch => rotChar_inverse hnd k (htext ch hch))
      _ = text := List.map_id text
  · rw [caesar_encode_ok M a s1 r1 0 htext]
    congr 1
    calc text.map (rotChar a 0)
        = text.map id := List.map_congr_left (fun ch hch => rotChar_zero (htext ch hch))
      _ = text := List.map_id text
  · rw [caesar_encode_ok M a s1 r1 (a.length : Int) htext]
    congr 1
    calc text.map (rotChar a (a.length : Int))
        = text.map id :=
          List.map_congr_left (fun ch hch => rotChar_alphalen (htext ch hch))
      _ = text := List.map_id text

/-- Witness for C5: rotation 13 then 13 over the default 26-letter alphabet
restores `'ABCD'`, and rotations 0 and 26 fix it. -/
theorem c5_caesar_inverse_witness :
    (encode unitRNG (.CaesarCipher defaultAlphabet 0 () 0) "ABCD".toList).1
      = .ok "ABCD".toList :=
  (c5_caesar_inverse unitRNG defaultAlphabet (by decide) 13 0 0 () ()
    "ABCD".toList (by decide)).2.1

/-! ### C6: composition associativity -/

/-- C6 counterexample: associativity fails when a stage leaks the raw
columnar filler `'X'` into the stream and the next stage has a different
alphabet.  With `A = ColumnarCipher(width=3)`, `B = CaesarCipher(alphabet=
'XYZ', rot_by=0)`, `C = Cipher()`, on `'ABCD'` both groupings succeed but
`(A∘B)∘C` gives `'AABACA'` while `A∘(B∘C)` gives `'AABCCC'`: in the first
grouping `B` translates the filler with its own alphabet (index 0); in the
second the intermediate pipeline translates it with the default alphabet
(index 23). -/
theorem c6_assoc_counterexample :
    (encode unitRNG (mkComposedCipher unitRNG
        (mkComposedCipher unitRNG (.ColumnarCipher defaultAlphabet 0 () 3 [0, 1, 2])
          (.CaesarCipher ['X', 'Y', 'Z'] 0 () 0))
        (.Cipher defaultAlphabet 0 ())) "ABCD".toList).1 = .ok "AABACA".toList ∧
    (encode unitRNG (mkComposedCipher unitRNG
        (.ColumnarCipher defaultAlphabet 0 () 3 [0, 1, 2])
        (mkComposedCipher unitRNG (.CaesarCipher ['X', 'Y', 'Z'] 0 () 0)
          (.Cipher defaultAlphabet 0 ()))) "ABCD".toList).1 = .ok "AABCCC".toList ∧
    "AABACA".toList ≠ "AABCCC".toList :=
  ⟨rfl, rfl, by decide⟩

theorem base_outputs_ints {R : Type} (M : RNGModel R) (a : List Char) (s : Int)
    (r : R) :
    ∀ (input out : List V), (encodeOrds M (.Cipher a s r) input).1 = .ok out →
      ∀ v ∈ out, ∃ n, v = V.i n := by
  intro input out h
  simp only [encodeOrds] at h
  exact ords_only_ints h

/-- C6 (amended): pipeline composition is associative whenever the first
stage emits a pure index sequence (every strategy does except the
transposition cipher once its padding filler is appended): for such `A` and
any `B`, `C`, `compose(compose(A,B),C)` and `compose(A,compose(B,C))` encode
every text identically, each stage's index output feeding the next with the
inter-stage `ords` acting as pure pass-through. -/
theorem c6_assoc_amended {R : Type} (M : RNGModel R) (A B C : Cipher R)
    (hA : ∀ input out, (encodeOrds M A input).1 = .ok out →
      ∀ v ∈ out, ∃ n, v = V.i n) (text : List Char) :
    (encode M (mkComposedCipher M (mkComposedCipher M A B) C) text).1
      = (encode M (mkComposedCipher M A (mkComposedCipher M B C)) text).1 := by
  simp only [encode, mkComposedCipher]
  cases h0 : ords defaultAlphabet (text.map V.c) with
  | error e => simp [encodeOrds, h0]
  | ok po =>
    have hpo : ∀ v ∈ po, ∃ n, v = V.i n := ords_only_ints h0
    have hpass : ords defaultAlphabet po = .ok po := ords_pass hpo
    cases hA1 : (encodeOrds M A po).1 with
    | error e => simp [encodeOrds, h0, hpass, hA1]
    | ok rA =>
      have hrA : ∀ v ∈ rA, ∃ n, v = V.i n := hA po rA hA1
      have hrApass : ords defaultAlphabet rA = .ok rA := ords_pass hrA
      cases hB : (encodeOrds M B rA).1 with
      | error e => simp [encodeOrds, h0, hpass, hA1, hB, hrApass]
      | ok rB =>
        cases hC : (encodeOrds M C rB).1 with
        | error e => simp [encodeOrds, h0, hpass, hA1, hB, hrApass, hC]
        | ok rC => simp [encodeOrds, h0, hpass, hA1, hB, hrApass, hC, alphabetOf]

/-- Witness for C6 (amended): an identity stage composed with two rot-13
stages, grouped both ways, on `'ABCD'`. -/
theorem c6_assoc_amended_witness :
    (encode unitRNG (mkComposedCipher unitRNG
        (mkComposedCipher unitRNG (.Cipher defaultAlphabet 0 ())
          (.CaesarCipher defaultAlphabet 0 () 13))
        (.CaesarCipher defaultAlphabet 0 () 13)) "ABCD".toList).1
      = (encode unitRNG (mkComposedCipher unitRNG (.Cipher defaultAlphabet 0 ())
          (mkComposedCipher unitRNG (.CaesarCipher defaultAlphabet 0 () 13)
            (.CaesarCipher defaultAlphabet 0 () 13))) "ABCD".toList).1 :=
  c6_assoc_amended unitRNG (.Cipher defaultAlphabet 0 ())
    (.CaesarCipher defaultAlphabet 0 () 13) (.CaesarCipher defaultAlphabet 0 () 13)
    (base_outputs_ints unitRNG defaultAlphabet 0 ()) "ABCD".toList

/-! ### C8: index pass-through and symbol lookup -/

/-- C8 counterexample: the claim says `symbolAt` fails for every index
outside `[0, N)` including negative ones, but `chr(-1)` succeeds and returns
the last symbol, by Python negative indexing. -/
theorem c8_chr_negative_counterexample :
    pychr defaultAlphabet (V.i (-1)) = .ok 'Z' ∧ (-1 : Int) < 0 :=
  ⟨rfl, by decide⟩

/-- C8 (amended): `ord` passes an already-supplied index through unchanged;
`chr` raises IndexError exactly for indices `≥ N` or `< -N`; and an index in
`[-N, 0)` is accepted, selecting the symbol at `N + n` (Python negative
indexing). -/
theorem c8_ord_pass_chr_range (a : List Char) (n : Int) :
    pyord a (.i n) = .ok (.i n) ∧
    ((n < -(a.length : Int) ∨ (a.length : Int) ≤ n) →
      pychr a (.i n) = .error .indexError) ∧
    (-(a.length : Int) ≤ n → n < 0 →
      pychr a (.i n) = .ok ((a.get? (n + a.length).toNat).getD 'A')) := by
  refine ⟨rfl, ?_, ?_⟩
  · intro h
    simp only [pychr]
    exact pyIndex_out_err a n h
  · intro h1 h2
    simp only [pychr]
    rw [pyIndex_neg_ok a n h1 h2]
    rw [List.get?_eq_get (by omega)]
    rfl

/-- Witness for C8 (amended): pass-through of 99, IndexError at 26, and
`chr(-1) = 'Z'` on the default alphabet. -/
theorem c8_ord_pass_chr_range_witness :
    pyord defaultAlphabet (.i 99) = .ok (.i 99) ∧
    pychr defaultAlphabet (.i 26) = .error .indexError ∧
    pychr defaultAlphabet (.i (-1))
      = .ok ((defaultAlphabet.get? ((-1 : Int) + defaultAlphabet.length).toNat).getD 'A') :=
  ⟨(c8_ord_pass_chr_range defaultAlphabet 99).1,
   (c8_ord_pass_chr_range defaultAlphabet 26).2.1 (by decide),
   (c8_ord_pass_chr_range defaultAlphabet (-1)).2.2 (by decide) (by decide)⟩

/-! ### C9: the Smasher preprocessing filter -/

/-- C9 counterexample: with the alphabet `'abc'` the Smasher folds `'a'` to
`'A'`, which is absent, substitutes the placeholder `'X'` — also absent — and
the final `ord` raises AlphabetError, so the filter both folds to the wrong
case for lowercase alphabets and can raise. -/
theorem c9_smasher_counterexample :
    (encodeOrds unitRNG (.Smasher ['a', 'b', 'c'] 0 ()) [V.c 'a']).1
      = .error (.alphabetError 'X') :=
  rfl

/-- C9 (amended): for every alphabet containing the placeholder `'X'` and
every input text, the Smasher strips whitespace and punctuation, folds the
remaining characters to uppercase, replaces every character whose uppercased
form is absent from the alphabet by `'X'`, and never raises. -/
theorem c9_smasher_amended {R : Type} (M : RNGModel R) (a : List Char)
    (hX : 'X' ∈ a) (seed : Int) (rng : R) (text : List Char) :
    (encodeOrds M (.Smasher a seed rng) (text.map V.c)).1
      = .ok (((text.filter (fun ch => !(pyIsspace ch) && !(pyPunct.contains ch))).map
          (fun ch => if a.contains (pyUpper ch) then pyUpper ch else 'X')).map
          (fun ch => V.i ((a.indexOf ch : Nat) : Int))) := by
  simp only [encodeOrds, smasherEncode]
  have h1 : mapME (fun v => match v with
      | V.c ch => Except.ok ch
      | V.i _ => Except.error PyErr.attributeError) (List.map V.c text)
      = .ok text := by
    have h2 : mapME (fun v => match v with
        | V.c ch => Except.ok ch
        | V.i _ => Except.error PyErr.attributeError) (text.map V.c)
        = .ok (text.map (fun ch => ch)) :=
      mapME_map_ok (fun ch _ => rfl)
    simpa using h2
  rw [h1]
  show mapME (pyord a) _ = _
  refine mapME_map_ok (fun ch hch => pyord_char_ok ?_)
  rcases List.mem_map.mp hch with ⟨ch0, _, rfl⟩
  by_cases hc : a.contains (pyUpper ch0)
  · rw [if_pos hc]
    simpa using hc
  · rw [if_neg hc]
    exact hX

/-- Witness for C9 (amended): `'Hel lo!'` over the default alphabet becomes
the indices of `'HELLO'` without raising. -/
theorem c9_smasher_amended_witness :
    (encodeOrds unitRNG (.Smasher defaultAlphabet 0 ()) ("Hel lo!".toList.map V.c)).1
      = .ok [V.i 7, V.i 4, V.i 11, V.i 11, V.i 14] :=
  c9_smasher_amended unitRNG defaultAlphabet (by decide) 0 () "Hel lo!".toList

end PuzzleCipher
